import Mathlib

/-!
Shallow embedding of the Tumblr2Discord sync engine (src/js/tumblr-api.js,
src/js/discord-api.js, src/js/app.js, and the Storage class in
src/unnamed/part_003), together with theorems settling the frozen claims
about it.  JavaScript objects become Lean structures, JS arrays become
lists, the nullable/undefined fields become Option, and localStorage-backed
mutable state is threaded explicitly.  Remote-item ids may arrive as
numbers or strings, so they are modelled by an explicit sum type with the
JS toString conversion.
-/

namespace GGG

/-- A remote post id as it appears in API payloads: either a JSON number or
a string.  Both sides of the storage interface normalize via toString. -/
inductive PostId where
  | num (n : Nat)
  | str (s : String)
deriving DecidableEq, Repr

/-- JS `id.toString()` for a post id. -/
def idToString : PostId → String
  | .num n => toString n
  | .str s => s

/-! ## Sync ledger (Storage, src/unnamed/part_003) -/

/-- One step of JS `Set.prototype.add` on an insertion-ordered set
represented as a list: adding an element already present leaves the set
(and the element's position) unchanged, otherwise the element is appended. -/
def jsSetAdd (l : List String) (s : String) : List String :=
  if l.contains s then l else l ++ [s]

/-- `new Set(existing)`: the insertion-ordered set of a list, i.e. the list
with later duplicates dropped. -/
def jsSetOfList (l : List String) : List String :=
  l.foldl jsSetAdd []

/-- `Array.prototype.slice(-n)`: the last `n` elements of a list (the whole
list when it is shorter than `n`). -/
def takeLast (n : Nat) (l : List String) : List String :=
  l.drop (l.length - n)

/-- The synced-id list produced by `Storage.markPostsAsSynced`
(src/unnamed/part_003 lines 146-160) for one connection:
`new Set(existing)` plus each incoming id stringified, then `slice(-1000)`. -/
def markSyncedIds (existing : List String) (postIds : List PostId) : List String :=
  takeLast 1000 ((postIds.map idToString).foldl jsSetAdd (jsSetOfList existing))

/-- A connection record as persisted by Storage (the fields the claims are
about; UI-only fields such as name and webhookUrl are untouched by the
modelled operations and omitted). -/
structure Conn where
  id : String
  enabled : Bool
  lastSync : Option Nat
  syncedPostIds : List String
  postTypes : List String
deriving DecidableEq, Repr

/-- `connections.findIndex(c => c.id === id)` followed by an in-place update
of that single element: update the first matching element of a list. -/
def updateFirst (p : Conn → Bool) (f : Conn → Conn) : List Conn → List Conn
  | [] => []
  | c :: cs => if p c then f c :: cs else c :: updateFirst p f cs

/-- `Storage.getConnection`: first connection with the given id. -/
def getConnection (conns : List Conn) (cid : String) : Option Conn :=
  conns.find? (fun c => c.id = cid)

/-- `Storage.getSyncedPostIds`: the synced-id list of a connection, `[]`
when the connection is absent. -/
def getSyncedPostIds (conns : List Conn) (cid : String) : List String :=
  ((getConnection conns cid).map Conn.syncedPostIds).getD []

/-- `Storage.isPostSynced` (src/unnamed/part_003 lines 165-168):
membership of `postId.toString()` in the synced-id list. -/
def isPostSynced (conns : List Conn) (cid : String) (pid : PostId) : Bool :=
  (getSyncedPostIds conns cid).contains (idToString pid)

/-- `Storage.markPostsAsSynced` at the connections-list level: rewrite the
first connection with the given id, replacing its synced-id list by
`markSyncedIds` and stamping `lastSync` to now.  No-op when absent. -/
def markPostsAsSynced (conns : List Conn) (cid : String) (postIds : List PostId)
    (now : Nat) : List Conn :=
  updateFirst (fun c => c.id = cid)
    (fun c => { c with syncedPostIds := markSyncedIds c.syncedPostIds postIds,
                       lastSync := some now }) conns

/-! ## Stable-id map (Storage.getOrCreateMediaPostId, Storage.deleteConnection) -/

/-- Association-list lookup, modelling JS object property read. -/
def alookup {α : Type} : List (String × α) → String → Option α
  | [], _ => none
  | e :: rest, k => if e.1 = k then some e.2 else alookup rest k

/-- Association-list write, modelling JS object property assignment: an
existing key is updated in place, a new key is appended. -/
def aset {α : Type} : List (String × α) → String → α → List (String × α)
  | [], k, v => [(k, v)]
  | e :: rest, k, v => if e.1 = k then (k, v) :: rest else e :: aset rest k v

/-- The media post id map: connection id, then stringified post id, to the
locally issued opaque id. -/
abbrev MediaMap := List (String × List (String × String))

/-- The localStorage-backed state the modelled Storage operations touch:
the connections document, the media-post-id map, and a counter standing in
for `Storage.generateId` (clock + randomness in the source; all generated
ids are nonempty strings). -/
structure AppState where
  connections : List Conn
  mediaMap : MediaMap
  fresh : Nat
deriving DecidableEq, Repr

/-- `Storage.generateId` modelled by a fresh counter; always nonempty. -/
def genId (n : Nat) : String := "id" ++ toString n

/-- `Storage.getOrCreateMediaPostId` (src/unnamed/part_003 lines 25-33):
return the opaque id stored for (connectionId, tumblrPostId) when present
(JS truthiness: present and nonempty), else generate, persist and return a
fresh one. -/
def getOrCreateMediaPostId (st : AppState) (cid pid : String) : String × AppState :=
  match alookup ((alookup st.mediaMap cid).getD []) pid with
  | some u =>
      if u = "" then
        (genId st.fresh,
         { st with
             mediaMap := (aset st.mediaMap cid (aset ((alookup st.mediaMap cid).getD []) pid (genId st.fresh))),
             fresh := st.fresh + 1 })
      else (u, st)
  | none =>
      (genId st.fresh,
       { st with
           mediaMap := (aset st.mediaMap cid (aset ((alookup st.mediaMap cid).getD []) pid (genId st.fresh))),
           fresh := st.fresh + 1 })

/-- `Storage.deleteConnection` (src/unnamed/part_003 lines 121-125): filter
the connection out of the connections document.  The media-post-id map is
not touched by this function in the source. -/
def deleteConnection (st : AppState) (cid : String) : AppState :=
  { st with connections := st.connections.filter (fun c => c.id ≠ cid) }

/-- Two-level lookup in the media map: the ledger entry for
(connection id, post id), if any. -/
def mediaLookup (st : AppState) (cid pid : String) : Option String :=
  alookup ((alookup st.mediaMap cid).getD []) pid

/-! ## Content fetch client (TumblrAPI.getNewPosts, src/js/tumblr-api.js 411-456) -/

/-- A remote item, with the fields `getNewPosts` / `getPostsSince` inspect:
provider-assigned id, unix timestamp (seconds) and provider-reported type.
The media payload fields are modelled separately for image extraction. -/
structure Post where
  id : PostId
  timestamp : Nat
  ptype : String
deriving DecidableEq, Repr

/-- The type filter `postTypes.length === 0 || postTypes.includes(post.type)`. -/
def typeOk (postTypes : List String) (p : Post) : Bool :=
  postTypes.isEmpty || postTypes.contains p.ptype

/-- The inner `for (const post of posts)` loop of `getNewPosts`: walk a
fetched page in order, stopping (and clearing `hasMore`) at the first post
with `timestamp <= lastSyncTimestamp`, collecting the posts surviving the
type filter.  Returns the collected posts and the `hasMore` flag. -/
def scanNewPosts (lastSync : Nat) (postTypes : List String) :
    List Post → List Post × Bool
  | [] => ([], true)
  | p :: rest =>
      if p.timestamp ≤ lastSync then ([], false)
      else
        let r := scanNewPosts lastSync postTypes rest
        (if typeOk postTypes p then p :: r.1 else r.1, r.2)

/-- The `while (hasMore)` pagination loop of `getNewPosts`.  `pages` is the
sequence of page payloads the fetch client returns for offsets
0, len p0, len p0 + len p1, ...; `none` models the loop still wanting a
page when the supplied sequence is exhausted (no normal return). -/
def getNewPostsLoop (lastSync : Nat) (postTypes : List String) :
    Nat → List (List Post) → Option (List Post)
  | _, [] => none
  | offset, posts :: pages =>
      if posts.isEmpty then some []
      else
        let r := scanNewPosts lastSync postTypes posts
        let offset1 := offset + posts.length
        if !r.2 || 200 ≤ offset1 then some r.1
        else
          match getNewPostsLoop lastSync postTypes offset1 pages with
          | none => none
          | some more => some (r.1 ++ more)

/-- `TumblrAPI.getNewPosts(blogName, lastSyncTimestamp, postTypes)` over an
arbitrary sequence of fetched pages. -/
def getNewPosts (lastSync : Nat) (postTypes : List String)
    (pages : List (List Post)) : Option (List Post) :=
  getNewPostsLoop lastSync postTypes 0 pages

/-! ## Sync engine (App.syncConnection, src/js/app.js 481-575) -/

/-- The watermark computed at the start of a sync pass:
`connection.lastSync ? floor(lastSync/1000) : floor((now - 24h)/1000)`
(milliseconds to seconds; truncated subtraction as Nat). -/
def watermark (lastSyncMs : Option Nat) (nowMs : Nat) : Nat :=
  match lastSyncMs with
  | some t => t / 1000
  | none => (nowMs - 24 * 60 * 60 * 1000) / 1000

/-- The per-item delivery loop of `syncConnection`: for each post of the
reversed new-post list, assign a stable id, attempt delivery (outcome given
by `ok` per position), and on success immediately mark that single post
synced (which also stamps `lastSync`).  Failures are caught and skipped.
Returns the final state and the success count. -/
def syncDeliverLoop (cid : String) (now : Nat) (ok : Nat → Bool) :
    Nat → List Post → AppState → AppState × Nat
  | _, [], st => (st, 0)
  | i, p :: rest, st =>
      let st1 := (getOrCreateMediaPostId st cid (idToString p.id)).2
      if ok i then
        let st2 := { st1 with
          connections := markPostsAsSynced st1.connections cid [p.id] now }
        let r := syncDeliverLoop cid now ok (i + 1) rest st2
        (r.1, r.2 + 1)
      else
        syncDeliverLoop cid now ok (i + 1) rest st1

/-- `Storage.updateConnection(id, { lastSync: now })`. -/
def updateConnLastSync (st : AppState) (cid : String) (now : Nat) : AppState :=
  { st with connections :=
      (updateFirst (fun c => c.id = cid) (fun c => { c with lastSync := some now })
        st.connections) }

/-- The surviving items of a pass: the `getNewPosts` result filtered by the
already-synced ledger, in the order `syncConnection` delivers them
(`newPosts.reverse()`, oldest first). -/
def survivingPosts (st : AppState) (cid : String) (posts : List Post) : List Post :=
  (posts.filter (fun p => !isPostSynced st.connections cid p.id)).reverse

/-- `App.syncConnection`, modelled on its persistent-state effect: look up
the connection, bail out when absent or disabled, compute the watermark,
fetch new posts (`none` from the fetch loop models the thrown error being
caught by the outer try, leaving state unchanged), filter already-synced
posts, and either stamp `lastSync` (no new posts) or run the delivery
loop.  UI output, stats and the activity log are not modelled. -/
def syncConnection (st : AppState) (cid : String) (now : Nat)
    (pages : List (List Post)) (ok : Nat → Bool) : AppState :=
  match getConnection st.connections cid with
  | none => st
  | some conn =>
      if conn.enabled = false then st
      else
        let lastSync := watermark conn.lastSync now
        match getNewPosts lastSync conn.postTypes pages with
        | none => st
        | some posts =>
            let newPosts := survivingPosts st cid posts
            if newPosts.isEmpty then updateConnLastSync st cid now
            else (syncDeliverLoop cid now ok 0 newPosts st).1

/-! ## Backfill pagination (TumblrAPI.getPostsSince, src/js/tumblr-api.js 328-406) -/

/-- The loop-local state of `getPostsSince`: pagination offset, accumulated
posts, consecutive page-failure count, the `hasMore` flag, and the trace of
`delay(ms)` calls made so far. -/
structure BackfillState where
  offset : Nat
  allPosts : List Post
  consecErrors : Nat
  hasMore : Bool
  delays : List Nat
deriving DecidableEq, Repr

/-- The starting state of a backfill pass. -/
def backfillInit : BackfillState :=
  { offset := 0, allPosts := [], consecErrors := 0, hasMore := true, delays := [] }

/-- The inner `for (const post of posts)` loop of `getPostsSince`: collect
filtered posts in page order, stopping (clearing `hasMore`) at the first
post with `timestamp < cutoffTimestamp`. -/
def scanSince (cutoff : Nat) (postTypes : List String) :
    List Post → List Post × Bool
  | [] => ([], true)
  | p :: rest =>
      if p.timestamp < cutoff then ([], false)
      else
        let r := scanSince cutoff postTypes rest
        (if typeOk postTypes p then p :: r.1 else r.1, r.2)

/-- One iteration of the `while (hasMore)` loop of `getPostsSince`, given
the outcome of this iteration's page fetch (`.error` models
`this.getPosts` throwing).  Mirrors, in order: the inter-request delay
when `offset > 0`, the try block (reset the error counter, stop on an
empty page, scan the page, advance the offset, apply the 500-post safety
stop) and the catch block (count the failure, stop after 2 consecutive
failures, otherwise record the 2000 ms retry delay). -/
def backfillStep (cutoff : Nat) (postTypes : List String) (st : BackfillState)
    (oc : Except String (List Post)) : BackfillState :=
  let st := if 0 < st.offset then { st with delays := st.delays ++ [1000] } else st
  match oc with
  | .ok posts =>
      let st := { st with consecErrors := 0 }
      if posts.isEmpty then { st with hasMore := false }
      else
        let r := scanSince cutoff postTypes posts
        let st := { st with allPosts := st.allPosts ++ r.1, hasMore := r.2,
                            offset := st.offset + posts.length }
        if 500 ≤ st.offset then { st with hasMore := false } else st
  | .error _ =>
      let ce := st.consecErrors + 1
      if 2 ≤ ce then { st with consecErrors := ce, hasMore := false }
      else { st with consecErrors := ce, delays := st.delays ++ [2000] }

/-- The `while (hasMore)` loop of `getPostsSince`, driven by the sequence
of page-fetch outcomes consumed one per iteration; `none` models the loop
still running when the supplied outcome sequence is exhausted.  On normal
termination the accumulated posts are returned (the source returns
`allPosts`, never an exception, since every fetch error is caught). -/
def runBackfill (cutoff : Nat) (postTypes : List String) :
    BackfillState → List (Except String (List Post)) → Option BackfillState
  | st, attempts =>
      if st.hasMore = false then some st
      else
        match attempts with
        | [] => none
        | oc :: rest => runBackfill cutoff postTypes (backfillStep cutoff postTypes st oc) rest

/-- `TumblrAPI.getPostsSince` over an outcome sequence: run the pagination
loop from the initial state and return the accumulated posts. -/
def getPostsSince (cutoff : Nat) (postTypes : List String)
    (attempts : List (Except String (List Post))) : Option (List Post) :=
  (runBackfill cutoff postTypes backfillInit attempts).map BackfillState.allPosts

/-! ## Relay fallback (TumblrAPI.makeRequest, src/js/tumblr-api.js 68-186) -/

/-- The outcome of attempting one CORS relay: an HTTP error status, an
unparsable body, or a parsed payload carrying the optional
`meta.status` and the `response` field the function returns. -/
inductive Outcome where
  | httpError (status : Nat)
  | parseError
  | parsed (metaStatus : Option Nat) (response : String)
deriving DecidableEq, Repr

/-- Whether one relay attempt fails the call: non-ok HTTP status is thrown
before parsing, an unparsable body is thrown, and a parsed payload whose
`meta` is present with `status !== 200` is thrown.  A parsed payload
without `meta`, or with `meta.status === 200`, succeeds. -/
def attemptFails : Outcome → Bool
  | .httpError _ => true
  | .parseError => true
  | .parsed (some s) _ => s ≠ 200
  | .parsed none _ => false

/-- The `data.response` value returned on success (meaningless on failure). -/
def outcomeResponse : Outcome → String
  | .parsed _ r => r
  | _ => ""

/-- The fixed fallback relay list of `makeRequest` (by `name`). -/
def availableProxies : List String := ["codetabs", "corsproxy-org", "allorigins-get"]

/-- The names generated for `CONFIG.CORS_PROXIES` (two entries in
src config: corsproxy.io and allorigins-raw). -/
def configProxies : List String := ["config_proxy_1", "config_proxy_2"]

/-- The sticky-preference reorder: if the remembered last-working proxy is
found at a positive index, splice it out and unshift it to the front. -/
def reorderProxies (lastWorking : Option String) (ps : List String) : List String :=
  match lastWorking with
  | none => ps
  | some lw =>
      match ps.indexOf? lw with
      | some idx => if 0 < idx then lw :: ps.eraseIdx idx else ps
      | none => ps

/-- The full candidate list `makeRequest` iterates over: the custom proxy
first when configured, then the fallback relays (reordered by the
remembered preference), then the CONFIG proxies. -/
def buildCandidates (customProxy : Bool) (lastWorking : Option String) : List String :=
  (if customProxy then ["custom"] else []) ++
    reorderProxies lastWorking availableProxies ++ configProxies

/-- The aggregate result of one `makeRequest` call. -/
structure ReqResult where
  /-- Names of the relays attempted, in order. -/
  attempts : List String
  /-- `some response` on success; `none` models the final
  "All CORS proxies failed" throw. -/
  result : Option String
  /-- The failing outcome of the last attempted relay, carried by the
  aggregate error (`lastError` in the source). -/
  lastError : Option (String × Outcome)
  /-- The `tumblr2discord_last_proxy` key after the call. -/
  lastProxyAfter : Option String
deriving DecidableEq, Repr

/-- The `for` loop over the candidate relays: try each in order; a failing
attempt records `lastError` and continues; the first success stores the
proxy name as the remembered preference and returns `data.response`. -/
def tryProxiesLoop (outcome : Nat → Outcome) (lastProxy : Option String) :
    List String → Nat → Option (String × Outcome) → ReqResult
  | [], _, lastErr =>
      { attempts := [], result := none, lastError := lastErr, lastProxyAfter := lastProxy }
  | nm :: rest, i, lastErr =>
      let oc := outcome i
      if attemptFails oc then
        let r := tryProxiesLoop outcome lastProxy rest (i + 1) (some (nm, oc))
        { r with attempts := nm :: r.attempts }
      else
        { attempts := [nm], result := some (outcomeResponse oc), lastError := lastErr,
          lastProxyAfter := some nm }

/-- `TumblrAPI.makeRequest` over per-candidate outcomes (the outcome of
attempting candidate `i` of the built list is `outcome i`); `none` when no
API key is configured (the initial AuthError throw). -/
def makeRequest (apiKey : String) (customProxy : Bool) (lastWorking : Option String)
    (outcome : Nat → Outcome) : Option ReqResult :=
  if apiKey = "" then none
  else some (tryProxiesLoop outcome lastWorking (buildCandidates customProxy lastWorking) 0 none)

/-! ## Global delivery queue (DiscordAPI.queueMessage / processQueue,
src/js/discord-api.js 82-124)

The queue system is simulated under the JS event-loop semantics of the
source: `queueMessage(m)` pushes `m` and starts `processQueue` unless a
drain loop is already running; the drain loop repeatedly shifts a message,
sends it, and waits `CONFIG.DISCORD_RATE_LIMIT_MS` afterwards only when
the queue is still non-empty; when the queue empties the drain ends at
once and the next enqueue starts a fresh drain.  Sends are modelled as
instantaneous; time advances only through the inter-send delay and the
enqueue timestamps.  Enqueue events are given as a time-sorted list; the
simulator returns the send log grouped into drain-loop runs (each group is
the sequence of (send time, message) pairs of one `processQueue`
invocation). -/

/-- Move every pending enqueue whose timestamp has passed onto the queue
(enqueues arriving while a drain is running just push, since
`isProcessingQueue` is set). -/
def absorbPending (t : Nat) : List (Nat × String) → List String →
    List String × List (Nat × String)
  | [], q => (q, [])
  | (te, m) :: rest, q =>
      if te ≤ t then absorbPending t rest (q ++ [m]) else (q, (te, m) :: rest)

/-- The drain simulation.  Arguments: fuel, current time, current queue,
pending (not yet arrived) enqueues, and the send log of the drain run in
progress.  One fuel unit is spent per step; with enough fuel the
simulation always completes (each step sends a message, starts a drain, or
finishes one). -/
def drainRun (rate : Nat) : Nat → Nat → List String → List (Nat × String) →
    List (Nat × String) → List (List (Nat × String))
  | 0, _, _, _, cur => [cur]
  | fuel + 1, _, [], pending, cur =>
      match pending with
      | [] => [cur]
      | (te, m) :: rest => cur :: drainRun rate fuel te [m] rest []
  | fuel + 1, now, m :: q, pending, cur =>
      let cur := cur ++ [(now, m)]
      let r := absorbPending now pending q
      if r.1.isEmpty then
        drainRun rate fuel now [] r.2 cur
      else
        let now1 := now + rate
        let r2 := absorbPending now1 r.2 r.1
        drainRun rate fuel now1 r2.1 r2.2 cur

/-- Run the queue system on a time-sorted list of enqueue events, from the
idle state.  Fuel `3 * n + 3` over-approximates the number of simulation
steps for `n` messages. -/
def runQueue (rate : Nat) (events : List (Nat × String)) : List (List (Nat × String)) :=
  drainRun rate (3 * events.length + 3) 0 [] events []

/-- The flat chronological send log (all drain runs concatenated). -/
def allSends (rate : Nat) (events : List (Nat × String)) : List (Nat × String) :=
  (runQueue rate events).flatten

/-! ## Image extraction (TumblrAPI.getPostImages, src/js/tumblr-api.js 660-763)

The media payload of a remote item is modelled separately from the
id/timestamp/type header used by the pagination loops: `getPostImages`
only reads the payload fields below. -/

/-- One size variant of a media object (`{ width, url }`). -/
structure MediaVariant where
  width : Option Nat
  url : Option String
deriving DecidableEq, Repr

/-- An NPF `block.media` value: a single object or an array of variants. -/
inductive NMedia where
  | single (m : MediaVariant)
  | arr (ms : List MediaVariant)
deriving DecidableEq, Repr

/-- An NPF content block: its `type`, its `media` and its nested
`content` (present even when empty, since `if (block.content)` in the
source tests only presence — an empty JS array is truthy). -/
inductive Block where
  | mk (btype : String) (media : Option NMedia) (content : Option (List Block))
deriving Repr

/-- The `type` field of a block. -/
def Block.btype : Block → String
  | .mk t _ _ => t

/-- The `media` field of a block. -/
def Block.media : Block → Option NMedia
  | .mk _ m _ => m

/-- The nested `content` field of a block. -/
def Block.nested : Block → Option (List Block)
  | .mk _ _ c => c

/-- A legacy photo entry (`photos[i]`). -/
structure PhotoRec where
  original_size : Option MediaVariant
  alt_sizes : List MediaVariant
deriving DecidableEq, Repr

/-- One reblog-trail entry. -/
structure TrailEntry where
  content : Option (List Block)
  content_raw : Option String
deriving Repr

/-- The legacy `reblog` object. -/
structure RebInfo where
  comment : Option String
  tree_html : Option String
deriving DecidableEq, Repr

/-- The media payload of a remote item: every source location
`getPostImages` collects candidate URLs from. -/
structure MediaPost where
  photos : List PhotoRec
  content : Option (List Block)
  trail : Option (List TrailEntry)
  reblog : Option RebInfo
  caption : Option String
  body : Option String
  photoset_photos : Option (List MediaVariant)
  source_url : Option String
deriving Repr

/-- An empty media payload, for building concrete posts. -/
def emptyMediaPost : MediaPost :=
  { photos := [], content := none, trail := none, reblog := none,
    caption := none, body := none, photoset_photos := none, source_url := none }

/-- JS truthiness of an optional string field: absent and empty are falsy. -/
def truthyStr : Option String → Option String
  | none => none
  | some s => if s = "" then none else some s

/-- `extractImageFromMedia` (src/js/tumblr-api.js 623-635): a single media
object yields its url; an array yields the url of the widest variant
(`reduce` seeded with the first element); falsy urls yield nothing. -/
def extractImageFromMedia : Option NMedia → Option String
  | none => none
  | some (.single m) => truthyStr m.url
  | some (.arr []) => none
  | some (.arr (m0 :: ms)) =>
      let largest := (m0 :: ms).foldl
        (fun a b => if b.width.getD 0 < a.width.getD 0 then a else b) m0
      truthyStr largest.url

/-- `images.push(url)` guarded by `!images.includes(url)`. -/
def pushIfNew (images : List String) (u : String) : List String :=
  if images.contains u then images else images ++ [u]

mutual

/-- `extractImagesFromContent` (src/js/tumblr-api.js 640-655) on an
optional content array. -/
def extractImagesFromContent : Option (List Block) → List String → List String
  | none, images => images
  | some blocks, images => extractImagesFromBlocks blocks images

/-- The `for (const block of content)` loop of `extractImagesFromContent`. -/
def extractImagesFromBlocks : List Block → List String → List String
  | [], images => images
  | b :: rest, images => extractImagesFromBlocks rest (extractImagesFromBlock b images)

/-- One loop body: an image block contributes its media url when new, and
any present nested `content` is recursed into. -/
def extractImagesFromBlock : Block → List String → List String
  | .mk btype media nested, images =>
      let images :=
        if btype = "image" then
          match extractImageFromMedia media with
          | some u => pushIfNew images u
          | none => images
        else images
      extractImagesFromContent nested images

end

/-- Is this character one of the quote delimiters of the regex character
class over quotes. -/
def isQuoteChar (c : Char) : Bool := c = '"' || c.toNat = 39

/-- Remainder of the haystack after the first occurrence of `pat`,
together with the index where `pat` started. -/
def findSplitIdx (pat : List Char) : List Char → Option (Nat × List Char)
  | [] => none
  | c :: rest =>
      if pat.isPrefixOf (c :: rest) then some (0, (c :: rest).drop pat.length)
      else (findSplitIdx pat rest).map (fun r => (r.1 + 1, r.2))

/-- All captures of `/<img[^>]+src=["']([^"']+)["']/gi` in left-to-right
scanning order: after each `<img`, `src=` must occur before the closing
`>` and at least one character after the tag name; the capture is the
nonempty run of non-quote characters between quote delimiters.  Fuel
(initially the haystack length) bounds the scan; each step consumes at
least one character. -/
def scanImgSrcAux : Nat → List Char → List String
  | 0, _ => []
  | fuel + 1, cs =>
      match findSplitIdx ['<', 'i', 'm', 'g'] cs with
      | none => []
      | some r =>
          let afterTag := r.2
          let tagLen := (afterTag.takeWhile (fun c => c ≠ '>')).length
          match findSplitIdx ['s', 'r', 'c', '='] afterTag with
          | some s =>
              if 1 ≤ s.1 ∧ s.1 + 4 ≤ tagLen then
                match s.2 with
                | q :: rest2 =>
                    if isQuoteChar q then
                      let cap := rest2.takeWhile (fun c => !isQuoteChar c)
                      let rest3 := rest2.dropWhile (fun c => !isQuoteChar c)
                      match rest3 with
                      | _ :: rest4 =>
                          if cap.isEmpty then scanImgSrcAux fuel afterTag
                          else String.mk cap :: scanImgSrcAux fuel rest4
                      | [] => []
                    else scanImgSrcAux fuel afterTag
                | [] => []
              else scanImgSrcAux fuel afterTag
          | none => []

/-- All captures of `/data-src=["']([^"']+)["']/gi`. -/
def scanDataSrcAux : Nat → List Char → List String
  | 0, _ => []
  | fuel + 1, cs =>
      match findSplitIdx ['d', 'a', 't', 'a', '-', 's', 'r', 'c', '='] cs with
      | none => []
      | some r =>
          match r.2 with
          | q :: rest2 =>
              if isQuoteChar q then
                let cap := rest2.takeWhile (fun c => !isQuoteChar c)
                let rest3 := rest2.dropWhile (fun c => !isQuoteChar c)
                match rest3 with
                | _ :: rest4 =>
                    if cap.isEmpty then scanDataSrcAux fuel r.2
                    else String.mk cap :: scanDataSrcAux fuel rest4
                | [] => []
              else scanDataSrcAux fuel r.2
          | [] => []

/-- All captures of `/<source[^>]+srcset=["']([^"'\s,]+)/gi`: the capture
stops at a quote, whitespace or comma and needs no closing delimiter. -/
def scanSrcsetAux : Nat → List Char → List String
  | 0, _ => []
  | fuel + 1, cs =>
      match findSplitIdx ['<', 's', 'o', 'u', 'r', 'c', 'e'] cs with
      | none => []
      | some r =>
          let afterTag := r.2
          let tagLen := (afterTag.takeWhile (fun c => c ≠ '>')).length
          match findSplitIdx ['s', 'r', 'c', 's', 'e', 't', '='] afterTag with
          | some s =>
              if 1 ≤ s.1 ∧ s.1 + 7 ≤ tagLen then
                match s.2 with
                | q :: rest2 =>
                    if isQuoteChar q then
                      let stop := fun c => isQuoteChar c || c.isWhitespace || c = ','
                      let cap := rest2.takeWhile (fun c => !stop c)
                      let rest3 := rest2.dropWhile (fun c => !stop c)
                      if cap.isEmpty then scanSrcsetAux fuel afterTag
                      else String.mk cap :: scanSrcsetAux fuel rest3
                    else scanSrcsetAux fuel afterTag
                | [] => []
              else scanSrcsetAux fuel afterTag
          | none => []

/-- Substring test, for the tracking-pixel filter. -/
def containsSub (hay needle : String) : Bool :=
  (hay.splitOn needle).length > 1

/-- `extractImagesFromHtml` (src/js/tumblr-api.js 732-763): run the three
regex scans in order; every candidate is appended only when nonempty and
not already collected, and img-src candidates containing the
tracking-pixel markers are excluded. -/
def extractImagesFromHtml (html : Option String) (images : List String) : List String :=
  match truthyStr html with
  | none => images
  | some h =>
      let chars := h.toList
      let images := (scanImgSrcAux chars.length chars).foldl
        (fun imgs url =>
          if url ≠ "" && !imgs.contains url && !containsSub url "pixel" &&
              !containsSub url "beacon" then imgs ++ [url] else imgs) images
      let images := (scanDataSrcAux chars.length chars).foldl
        (fun imgs url => if url ≠ "" && !imgs.contains url then imgs ++ [url] else imgs)
        images
      (scanSrcsetAux chars.length chars).foldl
        (fun imgs url => if url ≠ "" && !imgs.contains url then imgs ++ [url] else imgs)
        images

/-- Stage 1 of `getPostImages`: the legacy photos array.  Each photo pushes
its original-size url, else its first alt-size url, without any
membership guard. -/
def photosStage (photos : List PhotoRec) (images : List String) : List String :=
  photos.foldl
    (fun imgs photo =>
      match truthyStr (photo.original_size.bind MediaVariant.url) with
      | some u => imgs ++ [u]
      | none =>
          match truthyStr (photo.alt_sizes.head?.bind MediaVariant.url) with
          | some u => imgs ++ [u]
          | none => imgs)
    images

/-- Does the url match `/\.(jpg|jpeg|png|gif|webp)/i`. -/
def hasImageExt (u : String) : Bool :=
  let l := u.toLower
  containsSub l ".jpg" || containsSub l ".jpeg" || containsSub l ".png" ||
    containsSub l ".gif" || containsSub l ".webp"

/-- `TumblrAPI.getPostImages` (src/js/tumblr-api.js 660-727): collect
candidate urls from, in order, the legacy photos array, the NPF content
blocks, the trail (blocks then raw HTML), the reblog object HTML, the
caption and body HTML, the photoset array, and an image-looking source
url. -/
def getPostImages (post : MediaPost) : List String :=
  let images : List String := []
  let images := photosStage post.photos images
  let images := extractImagesFromContent post.content images
  let images := (post.trail.getD []).foldl
    (fun imgs tr => extractImagesFromHtml tr.content_raw
      (extractImagesFromContent tr.content imgs)) images
  let images :=
    match post.reblog with
    | none => images
    | some rb => extractImagesFromHtml rb.tree_html (extractImagesFromHtml rb.comment images)
  let images := extractImagesFromHtml post.caption images
  let images := extractImagesFromHtml post.body images
  let images := (post.photoset_photos.getD []).foldl
    (fun imgs p =>
      match p.url with
      | some u => if u ≠ "" && !imgs.contains u then imgs ++ [u] else imgs
      | none => imgs)
    images
  match truthyStr post.source_url with
  | some u => if hasImageExt u && !images.contains u then images ++ [u] else images
  | none => images

/-! ## Ledger lemmas -/

theorem jsSetAdd_nodup {l : List String} (h : l.Nodup) (s : String) :
    (jsSetAdd l s).Nodup := by
  unfold jsSetAdd
  split
  · exact h
  · next hc =>
      rw [← List.concat_eq_append]
      exact List.Nodup.concat (by simpa using hc) h

theorem foldl_jsSetAdd_nodup {l : List String} (h : l.Nodup) (ids : List String) :
    (ids.foldl jsSetAdd l).Nodup := by
  induction ids generalizing l with
  | nil => exact h
  | cons a rest ih => exact ih (jsSetAdd_nodup h a)

theorem jsSetOfList_nodup (l : List String) : (jsSetOfList l).Nodup :=
  foldl_jsSetAdd_nodup List.nodup_nil l

theorem takeLast_suffix (n : Nat) (l : List String) : takeLast n l <:+ l :=
  List.drop_suffix _ _

theorem takeLast_length_le (n : Nat) (l : List String) : (takeLast n l).length ≤ n := by
  unfold takeLast
  rw [List.length_drop]
  omega

theorem takeLast_nodup {l : List String} (h : l.Nodup) (n : Nat) :
    (takeLast n l).Nodup :=
  ((takeLast_suffix n l).sublist).nodup h

/-- C5: after any `markSynced` call on any prior synced-id list, the
stored list has no duplicate ids (in particular, marking an id already
present does not add it again, since the full deduplicated list is itself
duplicate-free), its length never exceeds 1000, and it is a suffix of the
deduplicated append (so truncation drops the oldest entries first).  Any
sequence of calls ends with such a call, so the invariant holds after any
sequence. -/
theorem markSyncedIds_spec (existing : List String) (postIds : List PostId) :
    ((postIds.map idToString).foldl jsSetAdd (jsSetOfList existing)).Nodup ∧
    (markSyncedIds existing postIds).Nodup ∧
    (markSyncedIds existing postIds).length ≤ 1000 ∧
    markSyncedIds existing postIds <:+
      ((postIds.map idToString).foldl jsSetAdd (jsSetOfList existing)) := by
  have hfull : ((postIds.map idToString).foldl jsSetAdd (jsSetOfList existing)).Nodup :=
    foldl_jsSetAdd_nodup (jsSetOfList_nodup existing) _
  exact ⟨hfull, takeLast_nodup hfull 1000, takeLast_length_le _ _, takeLast_suffix _ _⟩

theorem jsSetAdd_contains_self (l : List String) (s : String) :
    (jsSetAdd l s).contains s = true := by
  unfold jsSetAdd
  split
  · assumption
  · simp

theorem getConnection_updateFirst (cid : String) (f : Conn → Conn)
    (hf : ∀ c, (f c).id = c.id) (conns : List Conn) :
    getConnection (updateFirst (fun c => c.id = cid) f conns) cid =
      (getConnection conns cid).map f := by
  induction conns with
  | nil => rfl
  | cons c cs ih =>
      by_cases h : c.id = cid
      · simp [getConnection, updateFirst, List.find?, h, hf c]
      · simp only [getConnection, updateFirst] at *
        rw [if_neg (by simp [h])]
        simp only [List.find?]
        rw [show (decide (c.id = cid)) = false by simp [h]]
        exact ih

theorem mem_takeLast_1000 {l : List String} {s : String}
    (hlen : l.length ≤ 1001) (hmem : l.getLast? = some s) :
    (takeLast 1000 l).contains s = true := by
  unfold takeLast
  rcases List.eq_nil_or_concat l with rfl | ⟨l2, a, rfl⟩
  · simp at hmem
  · rw [List.concat_eq_append] at hmem ⊢
    rw [List.getLast?_concat] at hmem
    obtain rfl : a = s := by simpa using hmem
    simp only [List.length_append, List.length_singleton] at hlen ⊢
    rw [List.drop_append_of_le_length (by omega)]
    simp

/-- C10: marking a post id (given as a number or as its decimal string)
followed by an `isPostSynced` query with either representation returns
true, for any stored connection whose synced-id list has at most 1000
distinct entries (the invariant every list produced by the ledger API
satisfies). -/
theorem markSynced_isSynced_roundtrip (conns : List Conn) (cid : String) (conn : Conn)
    (r r2 : PostId) (now : Nat)
    (hconn : getConnection conns cid = some conn)
    (hinv : (jsSetOfList conn.syncedPostIds).length ≤ 1000)
    (hrep : idToString r2 = idToString r) :
    isPostSynced (markPostsAsSynced conns cid [r] now) cid r2 = true := by
  unfold isPostSynced getSyncedPostIds markPostsAsSynced
  rw [getConnection_updateFirst cid
    (fun c => { c with syncedPostIds := markSyncedIds c.syncedPostIds [r],
                       lastSync := some now }) (fun c => rfl) conns, hconn]
  simp only [Option.map_some', Option.getD_some, hrep]
  show (markSyncedIds conn.syncedPostIds [r]).contains (idToString r) = true
  unfold markSyncedIds
  simp only [List.map_cons, List.map_nil, List.foldl_cons, List.foldl_nil]
  set S := jsSetOfList conn.syncedPostIds with hS
  by_cases hc : S.contains (idToString r)
  · have : jsSetAdd S (idToString r) = S := by unfold jsSetAdd; rw [if_pos hc]
    rw [this]
    unfold takeLast
    rw [show S.length - 1000 = 0 by omega, List.drop_zero]
    exact hc
  · have : jsSetAdd S (idToString r) = S ++ [idToString r] := by
      unfold jsSetAdd; rw [if_neg hc]
    rw [this]
    exact mem_takeLast_1000 (by simp; omega) (by simp)

/-! ## Stable-id map lemmas -/

theorem alookup_aset {α : Type} (m : List (String × α)) (k : String) (v : α) (k2 : String) :
    alookup (aset m k v) k2 = if k = k2 then some v else alookup m k2 := by
  induction m with
  | nil => by_cases h : k = k2 <;> simp [aset, alookup, h]
  | cons e rest ih =>
      simp only [aset]
      by_cases he : e.1 = k
      · rw [if_pos he]
        simp only [alookup]
        by_cases h2 : k = k2
        · simp [h2]
        · rw [if_neg h2, if_neg h2, if_neg (show ¬ e.1 = k2 by rw [he]; exact h2)]
      · rw [if_neg he]
        simp only [alookup]
        by_cases h2 : e.1 = k2
        · rw [if_pos h2, if_pos h2, if_neg (show ¬ k = k2 by rw [← h2]; exact fun hh => he hh.symm)]
        · rw [if_neg h2, if_neg h2, ih]

theorem genId_ne_empty (n : Nat) : genId n ≠ "" := by
  unfold genId
  intro h
  have hlen : ("id" ++ toString n).length = ("" : String).length := by rw [h]
  rw [String.length_append] at hlen
  have h2 : ("id" : String).length = 2 := rfl
  have h0 : ("" : String).length = 0 := rfl
  omega

theorem getOrCreate_connections (st : AppState) (cid pid : String) :
    (getOrCreateMediaPostId st cid pid).2.connections = st.connections := by
  unfold getOrCreateMediaPostId
  cases hv : alookup ((alookup st.mediaMap cid).getD []) pid with
  | none => rfl
  | some u =>
      simp only
      split <;> rfl

theorem getOrCreate_found {st : AppState} {cid pid u : String}
    (h : mediaLookup st cid pid = some u) (hne : u ≠ "") :
    getOrCreateMediaPostId st cid pid = (u, st) := by
  unfold mediaLookup at h
  unfold getOrCreateMediaPostId
  rw [h]
  simp [hne]

theorem getOrCreate_lookup_after (st : AppState) (cid pid : String) :
    mediaLookup (getOrCreateMediaPostId st cid pid).2 cid pid
      = some (getOrCreateMediaPostId st cid pid).1 := by
  unfold getOrCreateMediaPostId mediaLookup
  cases hv : alookup ((alookup st.mediaMap cid).getD []) pid with
  | none => simp [alookup_aset]
  | some u =>
      by_cases hne : u = ""
      · subst hne
        simp [alookup_aset]
      · simp only [if_neg hne]
        exact hv

theorem getOrCreate_preserves {st : AppState} {cid pid u : String}
    (h : mediaLookup st cid pid = some u) (hne : u ≠ "") (c2 p2 : String) :
    mediaLookup (getOrCreateMediaPostId st c2 p2).2 cid pid = some u := by
  unfold mediaLookup at h ⊢
  unfold getOrCreateMediaPostId
  cases hv : alookup ((alookup st.mediaMap c2).getD []) p2 with
  | none =>
      by_cases hcc : c2 = cid
      · subst hcc
        have hpp : p2 ≠ pid := fun hpp => by rw [← hpp] at h; rw [h] at hv; cases hv
        simp [alookup_aset, hpp, h]
      · simp [alookup_aset, hcc, h]
  | some v =>
      by_cases hvne : v = ""
      · subst hvne
        by_cases hcc : c2 = cid
        · subst hcc
          have hpp : p2 ≠ pid := fun hpp =>
            hne (by rw [← hpp] at h; rw [h] at hv; injection hv)
          simp [alookup_aset, hpp, h]
        · simp [alookup_aset, hcc, h]
      · simp only [if_neg hvne]
        exact h

/-- C9: the stable-id assignment is idempotent — calling
`getOrCreateMediaPostId` again for the same (connection, post) pair
returns the same opaque id and the same state — and the id assigned to a
pair, once present (and nonempty, as every generated id is), is unchanged
by any further `getOrCreateMediaPostId` call for any pair. -/
theorem stableId_idempotent_and_stable (st : AppState) (c p : String) :
    getOrCreateMediaPostId (getOrCreateMediaPostId st c p).2 c p =
      getOrCreateMediaPostId st c p ∧
    ∀ u c2 p2, mediaLookup st c p = some u → u ≠ "" →
      mediaLookup (getOrCreateMediaPostId st c2 p2).2 c p = some u := by
  constructor
  · have hafter := getOrCreate_lookup_after st c p
    have hne : (getOrCreateMediaPostId st c p).1 ≠ "" := by
      unfold getOrCreateMediaPostId
      cases hv : alookup ((alookup st.mediaMap c).getD []) p with
      | none => exact genId_ne_empty _
      | some u =>
          by_cases hu : u = ""
          · simp only [hu, if_pos rfl]
            exact genId_ne_empty _
          · simp [hu]
    exact getOrCreate_found hafter hne
  · intro u c2 p2 h hne
    exact getOrCreate_preserves h hne c2 p2

/-- C3 counterexample: create a stable id for (connection c1, post 42),
delete the connection, and observe that the ledger entry is still present
and a repeated stableId call returns the old opaque id instead of issuing
a fresh one — deletion does not cascade to the ledger. -/
theorem deleteConnection_no_cascade_counterexample :
    (let st0 : AppState :=
        { connections := [{ id := "c1", enabled := true, lastSync := none,
                            syncedPostIds := [], postTypes := [] }],
          mediaMap := [], fresh := 0 }
     let st1 := (getOrCreateMediaPostId st0 "c1" "42").2
     let st2 := deleteConnection st1 "c1"
     mediaLookup st2 "c1" "42" = some "id0" ∧
       (getOrCreateMediaPostId st2 "c1" "42").1 = "id0" ∧
       (getOrCreateMediaPostId st2 "c1" "42").1 ≠ genId st2.fresh) := by
  decide

/-- C3 as amended: `Storage.deleteConnection` removes the connection from
the connections document but leaves the media-post-id ledger untouched, so
a later stableId call for the same (connection, post) pair returns the
previously assigned opaque id rather than issuing a fresh one. -/
theorem deleteConnection_leaves_ledger (st : AppState) (cid : String) :
    (deleteConnection st cid).mediaMap = st.mediaMap ∧
    ∀ pid u, mediaLookup st cid pid = some u → u ≠ "" →
      getOrCreateMediaPostId (deleteConnection st cid) cid pid =
        (u, deleteConnection st cid) := by
  refine ⟨rfl, fun pid u h hne => ?_⟩
  exact getOrCreate_found h hne

/-! ## Watermark filtering lemmas -/

theorem scanNewPosts_gt {w : Nat} {postTypes : List String} :
    ∀ (page : List Post) (p : Post), p ∈ (scanNewPosts w postTypes page).1 →
      w < p.timestamp := by
  intro page
  induction page with
  | nil => intro p hp; simp [scanNewPosts] at hp
  | cons q rest ih =>
      intro p hp
      unfold scanNewPosts at hp
      by_cases hq : q.timestamp ≤ w
      · rw [if_pos hq] at hp
        simp at hp
      · rw [if_neg hq] at hp
        by_cases ht : typeOk postTypes q = true
        · simp only [ht, if_pos] at hp
          rcases List.mem_cons.mp hp with rfl | hp2
          · omega
          · exact ih p hp2
        · simp only [ht] at hp
          simp at hp
          exact ih p hp

theorem getNewPostsLoop_gt {w : Nat} {postTypes : List String} :
    ∀ (pages : List (List Post)) (offset : Nat) (posts : List Post),
      getNewPostsLoop w postTypes offset pages = some posts →
      ∀ p ∈ posts, w < p.timestamp := by
  intro pages
  induction pages with
  | nil => intro offset posts h; cases h
  | cons page rest ih =>
      intro offset posts h p hp
      unfold getNewPostsLoop at h
      by_cases he : page.isEmpty
      · rw [if_pos he] at h
        injection h with h2
        rw [← h2] at hp
        cases hp
      · rw [if_neg he] at h
        by_cases hstop : (!(scanNewPosts w postTypes page).2 || 200 ≤ offset + page.length) = true
        · rw [if_pos hstop] at h
          injection h with h2
          rw [← h2] at hp
          exact scanNewPosts_gt page p hp
        · rw [if_neg hstop] at h
          cases hrec : getNewPostsLoop w postTypes (offset + page.length) rest with
          | none => rw [hrec] at h; cases h
          | some more =>
              rw [hrec] at h
              injection h with h2
              rw [← h2] at hp
              rcases List.mem_append.mp hp with h3 | h3
              · exact scanNewPosts_gt page p h3
              · exact ih (offset + page.length) more hrec p h3

theorem survivingPosts_subset (st : AppState) (cid : String) (posts : List Post)
    (p : Post) (hp : p ∈ survivingPosts st cid posts) : p ∈ posts := by
  unfold survivingPosts at hp
  exact List.mem_of_mem_filter (List.mem_reverse.mp hp)

/-- C1: every post returned by `getNewPosts` has timestamp strictly above
the pass watermark (the connection's last-sync time in seconds, else now
minus 24 hours), for arbitrary page contents returned by the fetch client;
consequently every item the sync pass goes on to deliver (the surviving,
reversed list) also has timestamp strictly above the watermark — no item
at or below the watermark is ever delivered during the pass. -/
theorem getNewPosts_respects_watermark (lastSyncMs : Option Nat) (nowMs : Nat)
    (postTypes : List String) (pages : List (List Post)) (posts : List Post)
    (st : AppState) (cid : String)
    (hrun : getNewPosts (watermark lastSyncMs nowMs) postTypes pages = some posts) :
    (∀ p ∈ posts, watermark lastSyncMs nowMs < p.timestamp) ∧
    (∀ p ∈ survivingPosts st cid posts, watermark lastSyncMs nowMs < p.timestamp) := by
  have hall := getNewPostsLoop_gt pages 0 posts hrun
  exact ⟨hall, fun p hp => hall p (survivingPosts_subset st cid posts p hp)⟩

theorem syncDeliverLoop_allfail_connections (cid : String) (now : Nat)
    (ok : Nat → Bool) (hok : ∀ j, ok j = false) :
    ∀ (ps : List Post) (i : Nat) (st : AppState),
      (syncDeliverLoop cid now ok i ps st).1.connections = st.connections := by
  intro ps
  induction ps with
  | nil => intro i st; rfl
  | cons p rest ih =>
      intro i st
      unfold syncDeliverLoop
      rw [hok i]
      simp only [Bool.false_eq_true, if_neg (by simp : ¬ False)]
      rw [ih (i + 1) ((getOrCreateMediaPostId st cid (idToString p.id)).2)]
      exact getOrCreate_connections st cid (idToString p.id)

/-- C2 counterexample: a sync pass on an enabled connection with one new
post whose single delivery fails leaves the connection record (in
particular its last-sync timestamp) unchanged instead of stamping it to
now — contradicting the claim that last-sync is updated regardless of
individual item outcomes. -/
theorem syncConnection_lastSync_counterexample :
    (let conn : Conn := { id := "c1", enabled := true, lastSync := some 5000,
                          syncedPostIds := [], postTypes := [] }
     let st0 : AppState := { connections := [conn], mediaMap := [], fresh := 0 }
     let pages : List (List Post) := [[{ id := PostId.num 1, timestamp := 100, ptype := "text" }], []]
     let st1 := syncConnection st0 "c1" 999999 pages (fun _ => false)
     (getConnection st1.connections "c1").map Conn.lastSync = some (some 5000) ∧
       (5000 : Nat) ≠ 999999) := by
  exact ⟨by decide, by decide⟩

/-- C2 as amended: a single-connection sync pass on an enabled connection
stamps the connection last-sync timestamp to now when the pass finds no
new posts, but when there are new posts the timestamp is only advanced by
the per-item `markPostsAsSynced` calls on successful deliveries — in the
case where every individual delivery fails, the connections document (and
so the last-sync timestamp) is left unchanged. -/
theorem syncConnection_lastSync_amended (st : AppState) (cid : String) (now : Nat)
    (pages : List (List Post)) (ok : Nat → Bool) (conn : Conn) (posts : List Post)
    (hconn : getConnection st.connections cid = some conn)
    (hen : conn.enabled = true)
    (hfetch : getNewPosts (watermark conn.lastSync now) conn.postTypes pages = some posts) :
    (survivingPosts st cid posts = [] →
      getConnection (syncConnection st cid now pages ok).connections cid =
        some { conn with lastSync := some now }) ∧
    (survivingPosts st cid posts ≠ [] → (∀ i, ok i = false) →
      (syncConnection st cid now pages ok).connections = st.connections) := by
  constructor
  · intro hempty
    unfold syncConnection
    rw [hconn]
    simp only [hen]
    rw [if_neg (show ¬ (true = false) by simp)]
    rw [hfetch]
    dsimp only
    rw [hempty]
    rw [if_pos (show ([] : List Post).isEmpty = true from rfl)]
    unfold updateConnLastSync
    rw [getConnection_updateFirst cid (fun c => { c with lastSync := some now })
      (fun c => rfl) st.connections, hconn]
    simp [hen]
  · intro hne hok
    unfold syncConnection
    rw [hconn]
    simp only [hen]
    rw [if_neg (show ¬ (true = false) by simp)]
    rw [hfetch]
    dsimp only
    rw [if_neg (show ¬ (survivingPosts st cid posts).isEmpty = true by
      simp [List.isEmpty_iff, hne])]
    exact syncDeliverLoop_allfail_connections cid now ok hok _ 0 st


/-! ## Backfill back-off lemmas -/

theorem runBackfill_stop {cutoff : Nat} {postTypes : List String} {st : BackfillState}
    (h : st.hasMore = false) (attempts : List (Except String (List Post))) :
    runBackfill cutoff postTypes st attempts = some st := by
  unfold runBackfill
  rw [if_pos h]

theorem runBackfill_cons {cutoff : Nat} {postTypes : List String} {st : BackfillState}
    (h : st.hasMore = true) (oc : Except String (List Post))
    (rest : List (Except String (List Post))) :
    runBackfill cutoff postTypes st (oc :: rest) =
      runBackfill cutoff postTypes (backfillStep cutoff postTypes st oc) rest := by
  conv_lhs => unfold runBackfill
  rw [if_neg (by rw [h]; simp)]

theorem backfillStep_err0 (cutoff : Nat) (postTypes : List String) (st : BackfillState)
    (e : String) (hce : st.consecErrors = 0) :
    backfillStep cutoff postTypes st (.error e) =
      { st with consecErrors := 1,
                delays := (if 0 < st.offset then st.delays ++ [1000] else st.delays) ++ [2000] } := by
  unfold backfillStep
  by_cases h : 0 < st.offset
  · simp [h, hce]
  · simp [h, hce]

theorem backfillStep_err1 (cutoff : Nat) (postTypes : List String) (st : BackfillState)
    (e : String) (hce : st.consecErrors = 1) :
    (backfillStep cutoff postTypes st (.error e)).hasMore = false ∧
    (backfillStep cutoff postTypes st (.error e)).allPosts = st.allPosts := by
  unfold backfillStep
  by_cases h : 0 < st.offset
  · simp [h, hce]
  · simp [h, hce]

/-- C7: during a backfill pass, a page-fetch failure with no failure
streak in progress leaves pagination running at the same offset with the
same accumulated posts, recording the fixed 2000 ms retry delay; a second
consecutive failure stops the pass, which then returns normally (a `some`
result, no exception) carrying exactly the posts accumulated so far; a
successful fetch resets the consecutive-failure counter to zero; and a
whole pass whose first two fetches fail returns the empty partial result
normally. -/
theorem getPostsSince_error_backoff (cutoff : Nat) (postTypes : List String) :
    (∀ (st : BackfillState) (e : String), st.consecErrors = 0 →
      backfillStep cutoff postTypes st (.error e) =
        { st with consecErrors := 1,
                  delays := (if 0 < st.offset then st.delays ++ [1000] else st.delays) ++ [2000] }) ∧
    (∀ (st : BackfillState) (e1 e2 : String) (rest : List (Except String (List Post))),
      st.hasMore = true → st.consecErrors = 0 →
      ∃ st2, runBackfill cutoff postTypes st (.error e1 :: .error e2 :: rest) = some st2 ∧
        st2.allPosts = st.allPosts ∧ st2.hasMore = false) ∧
    (∀ (st : BackfillState) (posts : List Post),
      (backfillStep cutoff postTypes st (.ok posts)).consecErrors = 0) ∧
    (∀ (e1 e2 : String) (rest : List (Except String (List Post))),
      getPostsSince cutoff postTypes (.error e1 :: .error e2 :: rest) = some []) := by
  refine ⟨backfillStep_err0 cutoff postTypes, ?_, ?_, ?_⟩
  · intro st e1 e2 rest hmore hce
    rw [runBackfill_cons hmore]
    rw [backfillStep_err0 cutoff postTypes st e1 hce]
    set st1 : BackfillState :=
      { st with consecErrors := 1,
                delays := (if 0 < st.offset then st.delays ++ [1000] else st.delays) ++ [2000] }
      with hst1
    have hm1 : st1.hasMore = true := hmore
    rw [runBackfill_cons hm1]
    have hstep := backfillStep_err1 cutoff postTypes st1 e2 rfl
    rw [runBackfill_stop hstep.1]
    exact ⟨_, rfl, hstep.2, hstep.1⟩
  · intro st posts
    unfold backfillStep
    by_cases h : 0 < st.offset
    · by_cases he : posts.isEmpty
      · simp [h, he]
      · by_cases hs : 500 ≤ st.offset + posts.length
        · simp [h, he, hs]
        · simp [h, he, hs]
    · by_cases he : posts.isEmpty
      · simp [h, he]
      · by_cases hs : 500 ≤ st.offset + posts.length
        · simp [h, he, hs]
        · simp [h, he, hs]
  · intro e1 e2 rest
    unfold getPostsSince
    rw [runBackfill_cons rfl, runBackfill_cons rfl, runBackfill_stop rfl]
    rfl


/-! ## Relay fallback lemmas -/

theorem tryProxiesLoop_success (outcome : Nat → Outcome) (lp : Option String) :
    ∀ (cands : List String) (i : Nat) (lastErr : Option (String × Outcome)) (k : Nat)
      (hk : k < cands.length),
      (∀ j, j < k → attemptFails (outcome (i + j)) = true) →
      attemptFails (outcome (i + k)) = false →
      (tryProxiesLoop outcome lp cands i lastErr).attempts = cands.take (k + 1) ∧
      (tryProxiesLoop outcome lp cands i lastErr).result
        = some (outcomeResponse (outcome (i + k))) ∧
      (tryProxiesLoop outcome lp cands i lastErr).lastProxyAfter = some (cands.get ⟨k, hk⟩) := by
  intro cands
  induction cands with
  | nil => intro i lastErr k hk; exact absurd hk (by simp)
  | cons nm rest ih =>
      intro i lastErr k hk hfail hsucc
      match k with
      | 0 =>
          rw [Nat.add_zero] at hsucc
          unfold tryProxiesLoop
          dsimp only
          rw [hsucc]
          simp
      | k2 + 1 =>
          have hf0 : attemptFails (outcome (i + 0)) = true := hfail 0 (Nat.succ_pos k2)
          rw [Nat.add_zero] at hf0
          unfold tryProxiesLoop
          dsimp only
          rw [hf0]
          simp only [if_pos]
          have hk2 : k2 < rest.length := by simpa using hk
          have hfail2 : ∀ j, j < k2 → attemptFails (outcome (i + 1 + j)) = true := by
            intro j hj
            have := hfail (j + 1) (by omega)
            rwa [show i + (j + 1) = i + 1 + j by omega] at this
          have hsucc2 : attemptFails (outcome (i + 1 + k2)) = false := by
            rwa [show i + (k2 + 1) = i + 1 + k2 by omega] at hsucc
          have hrec := ih (i + 1) (some (nm, outcome i)) k2 hk2 hfail2 hsucc2
          refine ⟨?_, ?_, ?_⟩
          · simp only [List.take]
            rw [← hrec.1]
          · rw [hrec.2.1, show i + 1 + k2 = i + (k2 + 1) by omega]
          · rw [hrec.2.2]
            rfl

theorem tryProxiesLoop_allfail (outcome : Nat → Outcome) (lp : Option String) :
    ∀ (cands : List String) (i : Nat) (lastErr : Option (String × Outcome)),
      (∀ j, j < cands.length → attemptFails (outcome (i + j)) = true) →
      tryProxiesLoop outcome lp cands i lastErr =
        { attempts := cands, result := none,
          lastError :=
            (match cands.getLast? with
             | some nm2 => some (nm2, outcome (i + cands.length - 1))
             | none => lastErr),
          lastProxyAfter := lp } := by
  intro cands
  induction cands with
  | nil => intro i lastErr hfail; rfl
  | cons nm rest ih =>
      intro i lastErr hfail
      have hf0 : attemptFails (outcome (i + 0)) = true := hfail 0 (by simp)
      rw [Nat.add_zero] at hf0
      unfold tryProxiesLoop
      dsimp only
      rw [hf0]
      simp only [if_pos]
      have hfail2 : ∀ j, j < rest.length → attemptFails (outcome (i + 1 + j)) = true := by
        intro j hj
        have := hfail (j + 1) (by simp; omega)
        rwa [show i + (j + 1) = i + 1 + j by omega] at this
      rw [ih (i + 1) (some (nm, outcome i)) hfail2]
      cases rest with
      | nil => rfl
      | cons r1 r2 =>
          simp only [List.getLast?_cons_cons]
          have hlen : i + 1 + (r1 :: r2).length - 1 = i + (r1 :: r2).length := by
            simp; omega
          rw [hlen]
          rfl

/-- C6: with an API key configured, `makeRequest` runs the sequential
relay fallback over the built candidate list (user-configured relay first
when present): when candidate k is the first whose attempt is a
well-formed success (HTTP ok, parsable, no provider-failure meta status),
the call returns candidate k's parsed response, candidates 0..k-1 were
each attempted exactly once, in order, before it, and candidate k is
remembered as the preferred relay; when every candidate fails, the call
fails carrying the last candidate's error. -/
theorem makeRequest_sequential_fallback (apiKey : String) (custom : Bool)
    (lastWorking : Option String) (outcome : Nat → Outcome) (hkey : apiKey ≠ "") :
    makeRequest apiKey custom lastWorking outcome =
      some (tryProxiesLoop outcome lastWorking (buildCandidates custom lastWorking) 0 none) ∧
    (custom = true → (buildCandidates custom lastWorking).head? = some "custom") ∧
    (∀ (k : Nat) (hk : k < (buildCandidates custom lastWorking).length),
      (∀ j, j < k → attemptFails (outcome j) = true) →
      attemptFails (outcome k) = false →
      (tryProxiesLoop outcome lastWorking (buildCandidates custom lastWorking) 0 none).attempts
          = (buildCandidates custom lastWorking).take (k + 1) ∧
      (tryProxiesLoop outcome lastWorking (buildCandidates custom lastWorking) 0 none).result
          = some (outcomeResponse (outcome k)) ∧
      (tryProxiesLoop outcome lastWorking (buildCandidates custom lastWorking) 0 none).lastProxyAfter
          = some ((buildCandidates custom lastWorking).get ⟨k, hk⟩)) ∧
    ((∀ j, j < (buildCandidates custom lastWorking).length → attemptFails (outcome j) = true) →
      tryProxiesLoop outcome lastWorking (buildCandidates custom lastWorking) 0 none =
        { attempts := buildCandidates custom lastWorking, result := none,
          lastError :=
            (match (buildCandidates custom lastWorking).getLast? with
             | some nm2 =>
                some (nm2, outcome ((buildCandidates custom lastWorking).length - 1))
             | none => none),
          lastProxyAfter := lastWorking }) := by
  refine ⟨?_, ?_, ?_, ?_⟩
  · unfold makeRequest
    rw [if_neg hkey]
  · intro hc
    subst hc
    rfl
  · intro k hk hfail hsucc
    have := tryProxiesLoop_success outcome lastWorking (buildCandidates custom lastWorking)
      0 none k hk (by intro j hj; rw [Nat.zero_add]; exact hfail j hj)
      (by rw [Nat.zero_add]; exact hsucc)
    rw [Nat.zero_add] at this
    exact this
  · intro hfail
    have := tryProxiesLoop_allfail outcome lastWorking (buildCandidates custom lastWorking)
      0 none (by intro j hj; rw [Nat.zero_add]; exact hfail j hj)
    rw [Nat.zero_add] at this
    exact this


/-! ## Delivery queue lemmas -/

theorem chain_append_send {rate : Nat} {cur : List (Nat × String)} {now : Nat} {m : String}
    (hc : List.Chain' (fun a b => a.1 + rate ≤ b.1) cur)
    (hl : ∀ x ∈ cur.getLast?, x.1 + rate ≤ now) :
    List.Chain' (fun a b => a.1 + rate ≤ b.1) (cur ++ [(now, m)]) := by
  rw [List.chain'_append]
  refine ⟨hc, List.chain'_singleton _, ?_⟩
  intro x hx y hy
  simp only [List.head?_cons, Option.mem_def, Option.some.injEq] at hy
  rw [← hy]
  exact hl x hx

theorem getLast_append_send (cur : List (Nat × String)) (now : Nat) (m : String) :
    (cur ++ [(now, m)]).getLast? = some (now, m) := by
  rw [List.getLast?_append]
  rfl

theorem drainRun_segments_chain (rate : Nat) :
    ∀ (fuel : Nat) (now : Nat) (queue : List String) (pending : List (Nat × String))
      (cur : List (Nat × String)),
      List.Chain' (fun a b => a.1 + rate ≤ b.1) cur →
      (∀ x ∈ cur.getLast?, queue = [] ∨ x.1 + rate ≤ now) →
      ∀ seg ∈ drainRun rate fuel now queue pending cur,
        List.Chain' (fun a b => a.1 + rate ≤ b.1) seg := by
  intro fuel
  induction fuel with
  | zero =>
      intro now queue pending cur hc hl seg hseg
      simp only [drainRun, List.mem_singleton] at hseg
      rw [hseg]
      exact hc
  | succ fuel ih =>
      intro now queue pending cur hc hl seg hseg
      cases queue with
      | nil =>
          cases pending with
          | nil =>
              simp only [drainRun, List.mem_singleton] at hseg
              rw [hseg]
              exact hc
          | cons e rest =>
              simp only [drainRun, List.mem_cons] at hseg
              rcases hseg with rfl | hseg2
              · exact hc
              · exact ih e.1 [e.2] rest [] (List.chain'_nil) (by simp) seg hseg2
      | cons m q =>
          unfold drainRun at hseg
          dsimp only at hseg
          have hlast : ∀ x ∈ (cur ++ [(now, m)]).getLast?, x.1 + rate ≤ now + rate := by
            intro x hx
            rw [getLast_append_send] at hx
            simp only [Option.mem_def, Option.some.injEq] at hx
            rw [← hx]
          have hc2 : List.Chain' (fun a b => a.1 + rate ≤ b.1) (cur ++ [(now, m)]) :=
            chain_append_send hc (fun x hx => (hl x hx).resolve_left (by simp))
          by_cases hq : (absorbPending now pending q).1.isEmpty
          · rw [if_pos hq] at hseg
            exact ih now [] (absorbPending now pending q).2 (cur ++ [(now, m)]) hc2
              (fun x _ => Or.inl rfl) seg hseg
          · rw [if_neg hq] at hseg
            exact ih (now + rate) (absorbPending (now + rate) (absorbPending now pending q).2
                (absorbPending now pending q).1).1
              (absorbPending (now + rate) (absorbPending now pending q).2
                (absorbPending now pending q).1).2
              (cur ++ [(now, m)]) hc2 (fun x hx => Or.inr (hlast x hx)) seg hseg

/-- C4 counterexample: with the configured 1000 ms minimum inter-send
delay, enqueueing one message at t = 0 (drained and sent immediately, the
queue empties, the drain ends with no trailing delay) and a second at
t = 1 produces send attempts at t = 0 and t = 1 — successive sends only
1 ms apart, far below the minimum delay the claim asserts. -/
theorem queue_rate_limit_counterexample :
    allSends 1000 [(0, "a"), (1, "b")] = [(0, "a"), (1, "b")] ∧ (1 : Nat) < 1000 := by
  exact ⟨by decide, by decide⟩

/-- C4 as amended: the minimum inter-send delay is honored between
successive send attempts within one drain-loop run of the global queue
(each segment of the simulated send log); when the queue empties the drain
ends without a trailing delay, so a send performed by a drain started by a
later enqueue may follow the previous send after less than the minimum
delay. -/
theorem queue_rate_limit_within_drain (rate : Nat) (events : List (Nat × String)) :
    ∀ seg ∈ runQueue rate events, List.Chain' (fun a b => a.1 + rate ≤ b.1) seg := by
  intro seg hseg
  exact drainRun_segments_chain rate (3 * events.length + 3) 0 [] events []
    List.chain'_nil (by simp) seg hseg


/-! ## Image extraction dedup lemmas -/

theorem nodup_append_single {imgs : List String} {u : String}
    (h : imgs.Nodup) (hc : imgs.contains u = false) : (imgs ++ [u]).Nodup := by
  rw [← List.concat_eq_append]
  exact List.Nodup.concat (by simpa using hc) h

theorem pushIfNew_nodup {imgs : List String} (u : String) (h : imgs.Nodup) :
    (pushIfNew imgs u).Nodup := by
  unfold pushIfNew
  split
  · exact h
  · next hc => exact nodup_append_single h (by simpa using hc)

theorem foldl_nodup_preserve {α : Type} (f : List String → α → List String)
    (hf : ∀ imgs u, imgs.Nodup → (f imgs u).Nodup) :
    ∀ (l : List α) (imgs : List String), imgs.Nodup → (l.foldl f imgs).Nodup := by
  intro l
  induction l with
  | nil => intro imgs h; exact h
  | cons a rest ih => intro imgs h; exact ih (f imgs a) (hf imgs a h)

mutual

theorem extractImagesFromContent_nodup (c : Option (List Block)) (imgs : List String)
    (h : imgs.Nodup) : (extractImagesFromContent c imgs).Nodup :=
  match c with
  | none => h
  | some blocks => extractImagesFromBlocks_nodup blocks imgs h

theorem extractImagesFromBlocks_nodup (blocks : List Block) (imgs : List String)
    (h : imgs.Nodup) : (extractImagesFromBlocks blocks imgs).Nodup :=
  match blocks with
  | [] => h
  | b :: rest =>
      extractImagesFromBlocks_nodup rest (extractImagesFromBlock b imgs)
        (extractImagesFromBlock_nodup b imgs h)

theorem extractImagesFromBlock_nodup (b : Block) (imgs : List String)
    (h : imgs.Nodup) : (extractImagesFromBlock b imgs).Nodup :=
  match b with
  | .mk btype media nested =>
      extractImagesFromContent_nodup nested _ (by
        split
        · split
          · exact pushIfNew_nodup _ h
          · exact h
        · exact h)

end

theorem extractImagesFromHtml_nodup (html : Option String) (imgs : List String)
    (h : imgs.Nodup) : (extractImagesFromHtml html imgs).Nodup := by
  unfold extractImagesFromHtml
  cases truthyStr html with
  | none => exact h
  | some h2 =>
      apply foldl_nodup_preserve
      · intro imgs2 u h3
        dsimp only
        split
        · next hcond =>
            simp only [Bool.and_eq_true, Bool.not_eq_true'] at hcond
            exact nodup_append_single h3 hcond.2
        · exact h3
      · apply foldl_nodup_preserve
        · intro imgs2 u h3
          dsimp only
          split
          · next hcond =>
              simp only [Bool.and_eq_true, Bool.not_eq_true'] at hcond
              exact nodup_append_single h3 hcond.2
          · exact h3
        · apply foldl_nodup_preserve
          · intro imgs2 u h3
            dsimp only
            split
            · next hcond =>
                simp only [Bool.and_eq_true, Bool.not_eq_true'] at hcond
                exact nodup_append_single h3 hcond.1.1.2
            · exact h3
          · exact h

theorem trailStage_nodup (l : List TrailEntry) (imgs : List String) (h : imgs.Nodup) :
    (l.foldl (fun imgs tr => extractImagesFromHtml tr.content_raw
      (extractImagesFromContent tr.content imgs)) imgs).Nodup := by
  apply foldl_nodup_preserve
  · intro imgs2 tr h0
    exact extractImagesFromHtml_nodup tr.content_raw _
      (extractImagesFromContent_nodup tr.content imgs2 h0)
  · exact h

theorem reblogStage_nodup (o : Option RebInfo) (imgs : List String) (h : imgs.Nodup) :
    (match o with
     | none => imgs
     | some rb => extractImagesFromHtml rb.tree_html
        (extractImagesFromHtml rb.comment imgs)).Nodup := by
  cases o with
  | none => exact h
  | some rb =>
      exact extractImagesFromHtml_nodup rb.tree_html _
        (extractImagesFromHtml_nodup rb.comment _ h)

theorem photosetStage_nodup (l : List MediaVariant) (imgs : List String) (h : imgs.Nodup) :
    (l.foldl (fun imgs p =>
      match p.url with
      | some u => if u ≠ "" && !imgs.contains u then imgs ++ [u] else imgs
      | none => imgs) imgs).Nodup := by
  apply foldl_nodup_preserve
  · intro imgs2 p h0
    dsimp only
    cases p.url with
    | none => exact h0
    | some u =>
        dsimp only
        split
        · next hcond =>
            simp only [Bool.and_eq_true, Bool.not_eq_true'] at hcond
            exact nodup_append_single h0 hcond.2
        · exact h0
  · exact h

theorem sourceUrlStage_nodup (o : Option String) (imgs : List String) (h : imgs.Nodup) :
    (match truthyStr o with
     | some u => if hasImageExt u && !imgs.contains u then imgs ++ [u] else imgs
     | none => imgs).Nodup := by
  cases truthyStr o with
  | none => exact h
  | some u =>
      dsimp only
      split
      · next hcond =>
          simp only [Bool.and_eq_true, Bool.not_eq_true'] at hcond
          exact nodup_append_single h hcond.2
      · exact h

/-- C8 counterexample: a remote item whose legacy photos array carries the
same original-size url twice yields that url twice from image extraction —
the legacy-photos stage appends without a membership guard, so the
produced candidate list is not duplicate-free. -/
theorem getPostImages_dup_counterexample :
    getPostImages { emptyMediaPost with
        photos := [{ original_size := some { width := none, url := some "u" }, alt_sizes := [] },
                   { original_size := some { width := none, url := some "u" }, alt_sizes := [] }] }
      = ["u", "u"] ∧
    ¬ (getPostImages { emptyMediaPost with
        photos := [{ original_size := some { width := none, url := some "u" }, alt_sizes := [] },
                   { original_size := some { width := none, url := some "u" }, alt_sizes := [] }] }).Nodup := by
  constructor
  · rfl
  · decide

/-- C8 as amended: every image-extraction stage after the legacy photos
array appends a candidate url only when it is not already collected, so
the candidate list produced by `getPostImages` is duplicate-free whenever
the urls contributed by the legacy photos stage are pairwise distinct;
the unguarded legacy-photos stage itself is the only source of
duplicates. -/
theorem getPostImages_nodup_amended (post : MediaPost)
    (h : (photosStage post.photos []).Nodup) : (getPostImages post).Nodup := by
  unfold getPostImages
  dsimp only
  exact sourceUrlStage_nodup post.source_url _
    (photosetStage_nodup (post.photoset_photos.getD []) _
      (extractImagesFromHtml_nodup post.body _
        (extractImagesFromHtml_nodup post.caption _
          (reblogStage_nodup post.reblog _
            (trailStage_nodup (post.trail.getD []) _
              (extractImagesFromContent_nodup post.content _ h))))))


/-! ## Witnesses: the claim theorems applied at concrete inputs -/

theorem getNewPosts_respects_watermark_witness :
    watermark (some 5000) 10000 < 100 :=
  (getNewPosts_respects_watermark (some 5000) 10000 []
      [[{ id := PostId.num 1, timestamp := 100, ptype := "text" }], []]
      [{ id := PostId.num 1, timestamp := 100, ptype := "text" }]
      { connections := [], mediaMap := [], fresh := 0 } "c" (by decide)).1
    { id := PostId.num 1, timestamp := 100, ptype := "text" } (by decide)

theorem syncConnection_lastSync_amended_witness :
    (syncConnection
        { connections := [{ id := "c1", enabled := true, lastSync := some 5000,
                            syncedPostIds := [], postTypes := [] }],
          mediaMap := [], fresh := 0 }
        "c1" 999999 [[{ id := PostId.num 1, timestamp := 100, ptype := "text" }], []]
        (fun _ => false)).connections =
      [{ id := "c1", enabled := true, lastSync := some 5000,
         syncedPostIds := [], postTypes := [] }] :=
  (syncConnection_lastSync_amended
      { connections := [{ id := "c1", enabled := true, lastSync := some 5000,
                          syncedPostIds := [], postTypes := [] }],
        mediaMap := [], fresh := 0 }
      "c1" 999999 [[{ id := PostId.num 1, timestamp := 100, ptype := "text" }], []]
      (fun _ => false)
      { id := "c1", enabled := true, lastSync := some 5000,
        syncedPostIds := [], postTypes := [] }
      [{ id := PostId.num 1, timestamp := 100, ptype := "text" }]
      (by decide) rfl (by decide)).2 (by decide) (fun _ => rfl)

theorem deleteConnection_leaves_ledger_witness :
    (deleteConnection
        { connections := [{ id := "c1", enabled := true, lastSync := none,
                            syncedPostIds := [], postTypes := [] }],
          mediaMap := [("c1", [("42", "xyz")])], fresh := 5 } "c1").mediaMap =
      [("c1", [("42", "xyz")])] ∧
    getOrCreateMediaPostId
        (deleteConnection
          { connections := [{ id := "c1", enabled := true, lastSync := none,
                              syncedPostIds := [], postTypes := [] }],
            mediaMap := [("c1", [("42", "xyz")])], fresh := 5 } "c1") "c1" "42" =
      ("xyz",
        deleteConnection
          { connections := [{ id := "c1", enabled := true, lastSync := none,
                              syncedPostIds := [], postTypes := [] }],
            mediaMap := [("c1", [("42", "xyz")])], fresh := 5 } "c1") :=
  ⟨(deleteConnection_leaves_ledger
      { connections := [{ id := "c1", enabled := true, lastSync := none,
                          syncedPostIds := [], postTypes := [] }],
        mediaMap := [("c1", [("42", "xyz")])], fresh := 5 } "c1").1,
    (deleteConnection_leaves_ledger
      { connections := [{ id := "c1", enabled := true, lastSync := none,
                          syncedPostIds := [], postTypes := [] }],
        mediaMap := [("c1", [("42", "xyz")])], fresh := 5 } "c1").2
      "42" "xyz" rfl (by decide)⟩

theorem queue_rate_limit_within_drain_witness :
    List.Chain' (fun a b => a.1 + 1000 ≤ b.1) [((0 : Nat), "a"), ((1000 : Nat), "b")] :=
  queue_rate_limit_within_drain 1000 [(0, "a"), (0, "b")] [(0, "a"), (1000, "b")] (by decide)

theorem makeRequest_sequential_fallback_witness :
    (tryProxiesLoop
        (fun i => if i = 1 then Outcome.parsed none "payload" else Outcome.httpError 500)
        none (buildCandidates false none) 0 none).attempts
      = (buildCandidates false none).take 2 ∧
    (tryProxiesLoop
        (fun i => if i = 1 then Outcome.parsed none "payload" else Outcome.httpError 500)
        none (buildCandidates false none) 0 none).result
      = some (outcomeResponse (Outcome.parsed none "payload")) ∧
    (tryProxiesLoop
        (fun i => if i = 1 then Outcome.parsed none "payload" else Outcome.httpError 500)
        none (buildCandidates false none) 0 none).lastProxyAfter
      = some ((buildCandidates false none).get ⟨1, by decide⟩) :=
  (makeRequest_sequential_fallback "key" false none
      (fun i => if i = 1 then Outcome.parsed none "payload" else Outcome.httpError 500)
      (by decide)).2.2.1 1 (by decide)
    (fun j hj => by
      have hj0 : j = 0 := by omega
      rw [hj0]
      decide)
    (by decide)

theorem getPostsSince_error_backoff_witness :
    backfillStep 100 [] backfillInit (.error "x") =
      { offset := 0, allPosts := [], consecErrors := 1, hasMore := true, delays := [2000] } := by
  rw [(getPostsSince_error_backoff 100 []).1 backfillInit "x" rfl]
  decide

theorem getPostImages_nodup_amended_witness :
    (getPostImages { emptyMediaPost with
        photos := [{ original_size := some { width := none, url := some "u" },
                     alt_sizes := [] }] }).Nodup :=
  getPostImages_nodup_amended _ (by decide)

theorem stableId_idempotent_and_stable_witness :
    getOrCreateMediaPostId
        (getOrCreateMediaPostId
          { connections := [], mediaMap := [("c", [("p", "x")])], fresh := 0 } "c" "p").2
        "c" "p"
      = getOrCreateMediaPostId
          { connections := [], mediaMap := [("c", [("p", "x")])], fresh := 0 } "c" "p" ∧
    mediaLookup
        (getOrCreateMediaPostId
          { connections := [], mediaMap := [("c", [("p", "x")])], fresh := 0 } "c" "q").2
        "c" "p" = some "x" :=
  ⟨(stableId_idempotent_and_stable
      { connections := [], mediaMap := [("c", [("p", "x")])], fresh := 0 } "c" "p").1,
    (stableId_idempotent_and_stable
      { connections := [], mediaMap := [("c", [("p", "x")])], fresh := 0 } "c" "p").2
      "x" "c" "q" rfl (by decide)⟩

theorem markSynced_isSynced_roundtrip_witness :
    isPostSynced
        (markPostsAsSynced
          [{ id := "c1", enabled := true, lastSync := none,
             syncedPostIds := [], postTypes := [] }]
          "c1" [PostId.num 42] 7)
        "c1" (PostId.str "42") = true :=
  markSynced_isSynced_roundtrip
    [{ id := "c1", enabled := true, lastSync := none,
       syncedPostIds := [], postTypes := [] }]
    "c1"
    { id := "c1", enabled := true, lastSync := none,
      syncedPostIds := [], postTypes := [] }
    (PostId.num 42) (PostId.str "42") 7 (by decide) (by decide) (by decide)

end GGG
